import Mathlib

/-!
Shallow embedding of the USDTUSDCEURI data-acquisition and arbitrage core.

Numeric values (Python floats) are modelled as rationals `ℚ`; every claim
settled here is structural (exact formulas, ordering, filtering, tie-breaks),
so the embedding is faithful for those properties.  Python dictionaries with
`.get` defaults are modelled as structures of `Option` fields, resolved with
the same defaults the source uses.  `min`/`max` with a `key` function are
modelled by a left fold that replaces the current best only on a strict
comparison, exactly as CPython does (first element wins ties).  `list.sort`
(Timsort, stable) is modelled by `List.insertionSort`, which is also stable;
a stable sort's output is uniquely determined by the key preorder, so the
two agree extensionally.
-/

namespace ArbScanner

/-- Python `str.upper` on the ASCII status/source strings this core compares,
written character-wise so that it reduces in the kernel. -/
def pyUpper (s : String) : String := String.mk (s.data.map Char.toUpper)

/-- Python `str.lower`, character-wise (used for default exchange ids). -/
def pyLower (s : String) : String := String.mk (s.data.map Char.toLower)

/-- CPython `min(x :: xs, key)`: fold keeping the current best unless a later
element is strictly smaller, so the first minimal element wins. -/
def pyMinBy {α : Type} (key : α → ℚ) (x : α) (xs : List α) : α :=
  xs.foldl (fun best y => if key y < key best then y else best) x

/-- CPython `max(x :: xs, key)`: replaces only on strictly greater key, so the
first maximal element wins. -/
def pyMaxBy {α : Type} (key : α → ℚ) (x : α) (xs : List α) : α :=
  xs.foldl (fun best y => if key best < key y then y else best) x

/-- Input quote dictionary of `analyze` (src/gui/services/arbitrage_analyzer.py).
Each field models the corresponding `quote.get(...)` access: `none` is an
absent key / `None` value. -/
structure QuoteDict where
  status : Option String
  bid : Option ℚ
  ask : Option ℚ
  last : Option ℚ
  source : Option String
  exchange : Option String
  timestamp : Option String
deriving DecidableEq, Repr

/-- Normalized quote snapshot (frozen dataclass `QuoteSnapshot`). -/
structure QuoteSnapshot where
  exchange : String
  bid : ℚ
  ask : ℚ
  last : ℚ
  status : String
  timestamp : String
  source : String
deriving DecidableEq, Repr

/-- Arbitrage opportunity between two exchanges (frozen dataclass). -/
structure Opportunity where
  buy_exchange : String
  buy_ask : ℚ
  sell_exchange : String
  sell_bid : ℚ
  spread_abs : ℚ
  spread_pct : ℚ
deriving DecidableEq, Repr

/-- Aggregated arbitrage analysis output (frozen dataclass). -/
structure ArbitrageResult where
  best_buy : Option QuoteSnapshot
  best_sell : Option QuoteSnapshot
  spread_abs : ℚ
  spread_pct : ℚ
  opportunities : List Opportunity
deriving DecidableEq, Repr

/-- `_filter_valid`: keeps quotes with upper-cased status `"OK"`, positive bid
and ask, and (when `only_ws`) upper-cased source `"WS"`; `source` falls back to
`"HTTP"` when missing or empty (Python `or "HTTP"` on a falsy value). -/
def _filter_valid (quotes : List QuoteDict) (only_ws : Bool) : List QuoteSnapshot :=
  quotes.filterMap fun quote =>
    let status := pyUpper (quote.status.getD "")
    if status ≠ "OK" then none
    else
      let bid := quote.bid.getD 0
      let ask := quote.ask.getD 0
      if bid ≤ 0 ∨ ask ≤ 0 then none
      else
        let src := quote.source.getD "HTTP"
        let source := pyUpper (if src = "" then "HTTP" else src)
        if only_ws = true ∧ source ≠ "WS" then none
        else some ⟨quote.exchange.getD "", bid, ask, quote.last.getD 0,
          status, quote.timestamp.getD "", source⟩

/-- One iteration of the `_build_opportunities` inner loop body: the
opportunity built from a (buy, sell) pair, with the exact spread formulas of
the source (`spread_pct` is 0 when `buy.ask` is falsy, i.e. zero). -/
def mkOpportunity (buy sell : QuoteSnapshot) : Opportunity :=
  let spread_abs := sell.bid - buy.ask
  let spread_pct := if buy.ask ≠ 0 then spread_abs / buy.ask * 100 else 0
  ⟨buy.exchange, buy.ask, sell.exchange, sell.bid, spread_abs, spread_pct⟩

/-- The unsorted all-pairs opportunity list accumulated by
`_build_opportunities` before sorting: self-pairs (same exchange name) are
skipped, as are pairs whose `spread_pct` is below `min_spread_pct`. -/
def _cross_opportunities (quotes : List QuoteSnapshot) (min_spread_pct : ℚ) :
    List Opportunity :=
  quotes.flatMap fun buy =>
    quotes.filterMap fun sell =>
      if buy.exchange = sell.exchange then none
      else
        let o := mkOpportunity buy sell
        if o.spread_pct < min_spread_pct then none
        else some o

/-- Descending order on opportunities used by the final
`opportunities.sort(key=..., reverse=True)`. -/
def oppDescRel (a b : Opportunity) : Prop := b.spread_pct ≤ a.spread_pct

instance : DecidableRel oppDescRel := fun a b =>
  inferInstanceAs (Decidable (b.spread_pct ≤ a.spread_pct))

instance : IsTotal Opportunity oppDescRel :=
  ⟨fun a b => le_total b.spread_pct a.spread_pct⟩

instance : IsTrans Opportunity oppDescRel :=
  ⟨fun _ _ _ hab hbc => le_trans hbc hab⟩

/-- `_build_opportunities`: all-pairs cross product, stable-sorted descending
by `spread_pct`, truncated to `top_n`. -/
def _build_opportunities (quotes : List QuoteSnapshot) (min_spread_pct : ℚ)
    (top_n : Nat) : List Opportunity :=
  ((_cross_opportunities quotes min_spread_pct).insertionSort oppDescRel).take top_n

/-- `analyze`: filters the quotes, then takes Python `min`/`max` by ask/bid
(first element wins ties), with the exact spread formulas of the source. -/
def analyze (quotes : List QuoteDict) (min_spread_pct : ℚ) (only_ws : Bool)
    (top_n : Nat) : ArbitrageResult :=
  match _filter_valid quotes only_ws with
  | [] => ⟨none, none, 0, 0, []⟩
  | q :: qs =>
    let best_buy := pyMinBy (fun x => x.ask) q qs
    let best_sell := pyMaxBy (fun x => x.bid) q qs
    let spread_abs := best_sell.bid - best_buy.ask
    let spread_pct := if best_buy.ask ≠ 0 then spread_abs / best_buy.ask * 100 else 0
    ⟨some best_buy, some best_sell, spread_abs, spread_pct,
      _build_opportunities (q :: qs) min_spread_pct top_n⟩

/-- Concrete quote dictionaries: exchange A quoting bid 100 / ask 101 and
exchange B quoting bid 102 / ask 103, both with status OK. -/
def demoQuotes : List QuoteDict :=
  [⟨some "OK", some 100, some 101, none, none, some "A", none⟩,
   ⟨some "OK", some 102, some 103, none, none, some "B", none⟩]

/-- The snapshot `_filter_valid` produces for exchange A of `demoQuotes`. -/
def snapA : QuoteSnapshot := ⟨"A", 100, 101, 0, "OK", "", "HTTP"⟩

/-- The snapshot `_filter_valid` produces for exchange B of `demoQuotes`. -/
def snapB : QuoteSnapshot := ⟨"B", 102, 103, 0, "OK", "", "HTTP"⟩

/-- Two quotes tied at the minimal ask and maximal bid, on exchanges A and B. -/
def tieQuotes : List QuoteDict :=
  [⟨some "OK", some 99, some 100, none, none, some "A", none⟩,
   ⟨some "OK", some 99, some 100, none, none, some "B", none⟩]

/-- The snapshot `_filter_valid` produces for exchange A of `tieQuotes`. -/
def tieSnapA : QuoteSnapshot := ⟨"A", 99, 100, 0, "OK", "", "HTTP"⟩

/-- The snapshot `_filter_valid` produces for exchange B of `tieQuotes`. -/
def tieSnapB : QuoteSnapshot := ⟨"B", 99, 100, 0, "OK", "", "HTTP"⟩

/-- Lifecycle events a job's Qt signals deliver (src/core/update_controller.py,
`UpdateJob`): each carries the submitting run id. -/
inductive JobEvent (α : Type) where
  | started (run_id : Nat)
  | succeeded (run_id : Nat) (result : α)
  | failed (run_id : Nat) (message : String)
  | finished (run_id : Nat)
deriving DecidableEq, Repr

/-- `SafeUpdateController.submit`, as a transition on the lock-protected
in-flight key set: returns `none` and leaves the set unchanged when the key is
already in flight, otherwise returns a job handle (modelled by the `started`
event it emits) and inserts the key. -/
def submit (in_flight : Finset String) (key : String) (run_id : Nat) :
    Option (JobEvent Unit) × Finset String :=
  if key ∈ in_flight then (none, in_flight)
  else (some (JobEvent.started run_id), insert key in_flight)

/-- The `_done` completion callback: on a raised exception it emits `failed`,
on a normal return it emits `succeeded`; in both cases the `finally` block
discards the key from the in-flight set and emits `finished`. -/
def _done {α : Type} (in_flight : Finset String) (key : String) (run_id : Nat)
    (outcome : Except String α) : Finset String × List (JobEvent α) :=
  match outcome with
  | Except.error exc => (in_flight.erase key, [JobEvent.failed run_id exc, JobEvent.finished run_id])
  | Except.ok result => (in_flight.erase key, [JobEvent.succeeded run_id result, JobEvent.finished run_id])

/-- Raw ticker dictionary fields read by the scan service
(src/scanner/ticker_scan.py): `_as_float(ticker.get(...))` results. -/
structure Ticker where
  bid : Option ℚ
  ask : Option ℚ
  quoteVolume : Option ℚ
  baseVolume : Option ℚ
deriving DecidableEq, Repr

/-- `_pick_volume`: quote volume when available, else base volume. -/
def _pick_volume (ticker : Ticker) : Option ℚ :=
  match ticker.quoteVolume with
  | some v => some v
  | none => ticker.baseVolume

/-- A per-exchange entry collected for one pair:
`(exchange_label, bid, ask, mid, volume)`. -/
structure ScanEntry where
  exchange : String
  bid : ℚ
  ask : ℚ
  mid : ℚ
  volume : Option ℚ
deriving DecidableEq, Repr

/-- `statistics.median` on rationals: sort ascending; middle element for odd
length, mean of the two middle elements for even length (0 for the empty
list, on which the Python function raises and which the service never
reaches — it only takes medians of lists with ≥ 2 or ≥ 1 elements). -/
def pymedian (l : List ℚ) : ℚ :=
  let s := l.insertionSort (fun a b => a ≤ b)
  let n := l.length
  if n % 2 = 1 then s.getD (n / 2) 0
  else (s.getD (n / 2 - 1) 0 + s.getD (n / 2) 0) / 2

/-- The optional intrabook-spread filter of the entry-collection loop:
drops an entry when `(ask - bid) / mid * 100 > max_intrabook_spread_pct`. -/
def intrabookExceeds (max_intrabook_spread_pct : Option ℚ) (bid ask mid : ℚ) : Bool :=
  match max_intrabook_spread_pct with
  | none => false
  | some maxPct => decide ((ask - bid) / mid * 100 > maxPct)

/-- The entry-collection loop of `scan` for one pair: for each exchange label
of the pair, look up the fetched ticker; skip missing tickers, missing or
non-positive bid/ask, and (optionally) entries whose own intrabook spread is
too wide; `mid = (bid + ask) / 2`. -/
def _pair_entries (exchange_tickers : List (String × Option Ticker))
    (max_intrabook_spread_pct : Option ℚ) : List ScanEntry :=
  exchange_tickers.filterMap fun et =>
    match et.2 with
    | none => none
    | some ticker =>
      match ticker.bid, ticker.ask with
      | some bid, some ask =>
        if bid ≤ 0 ∨ ask ≤ 0 then none
        else
          let mid := (bid + ask) / 2
          if intrabookExceeds max_intrabook_spread_pct bid ask mid then none
          else some ⟨et.1, bid, ask, mid, _pick_volume ticker⟩
      | _, _ => none

/-- The outlier-rejection step of `scan`: keep exactly the entries whose mid
deviates from the median mid by at most `outlier_pct` percent. -/
def _survivors (entries : List ScanEntry) (outlier_pct : ℚ) : List ScanEntry :=
  let median_mid := pymedian (entries.map fun e => e.mid)
  entries.filter fun e => ¬ (|e.mid - median_mid| / median_mid * 100 > outlier_pct)

/-- Ticker scan result for a single pair (frozen dataclass
`TickerScanUpdate`). -/
structure TickerScanUpdate where
  pair : String
  best_buy_exchange : Option String
  buy_ask : Option ℚ
  best_sell_exchange : Option String
  sell_bid : Option ℚ
  spread_abs : Option ℚ
  spread_pct : Option ℚ
  volume_24h : Option ℚ
deriving DecidableEq, Repr

/-- `_build_update`: best buy is the Python `min` of the `(ask, exchange)`
list by ask, best sell the Python `max` of the `(bid, exchange)` list by bid
(first entry wins ties); `spread_abs = sell_bid - buy_ask`; `spread_pct` uses
the mid of the two and is `none` when that mid is not positive; `volume_24h`
is the median of the collected volumes, `none` when there are none. -/
def _build_update (pair : String) (bids asks : List (ℚ × String))
    (volumes : List ℚ) : TickerScanUpdate :=
  let bb : Option (ℚ × String) := match asks with
    | [] => none
    | a :: rest => some (pyMinBy (fun item => item.1) a rest)
  let bs : Option (ℚ × String) := match bids with
    | [] => none
    | b :: rest => some (pyMaxBy (fun item => item.1) b rest)
  let spreads : Option ℚ × Option ℚ :=
    match bb, bs with
    | some buyItem, some sellItem =>
      let spread_abs := sellItem.1 - buyItem.1
      let mid := (sellItem.1 + buyItem.1) / 2
      (some spread_abs, if mid > 0 then some (spread_abs / mid * 100) else none)
    | _, _ => (none, none)
  ⟨pair, bb.map (fun item => item.2), bb.map (fun item => item.1),
    bs.map (fun item => item.2), bs.map (fun item => item.1),
    spreads.1, spreads.2,
    match volumes with
    | [] => none
    | v :: vs => some (pymedian (v :: vs))⟩

/-- The per-pair tail of `scan` (after fetching): collect entries, require at
least two, reject outliers, require at least two survivors, then build the
update from the survivors' bids, asks and present volumes; `none` means the
pair is skipped. -/
def _scan_pair (pair : String) (exchange_tickers : List (String × Option Ticker))
    (max_intrabook_spread_pct : Option ℚ) (outlier_pct : ℚ) :
    Option TickerScanUpdate :=
  let entries := _pair_entries exchange_tickers max_intrabook_spread_pct
  if entries.length < 2 then none
  else
    let valid_entries := _survivors entries outlier_pct
    if valid_entries.length < 2 then none
    else
      some (_build_update pair
        (valid_entries.map fun e => (e.bid, e.exchange))
        (valid_entries.map fun e => (e.ask, e.exchange))
        (valid_entries.filterMap fun e => e.volume))

/-- The aggregation loop of `scan` over the selected pairs: each skipped pair
(fewer than 2 entries before or after outlier rejection) increments
`skipped_count`; the others append their update in order. -/
def _scan_pairs (pairs_data : List (String × List (String × Option Ticker)))
    (max_intrabook_spread_pct : Option ℚ) (outlier_pct : ℚ) :
    List TickerScanUpdate × Nat :=
  pairs_data.foldl (fun acc pd =>
    match _scan_pair pd.1 pd.2 max_intrabook_spread_pct outlier_pct with
    | none => (acc.1, acc.2 + 1)
    | some u => (acc.1 ++ [u], acc.2)) ([], 0)

/-- The per-class minimum refresh interval `_min_symbol_refresh_s = 4.0`. -/
def _min_symbol_refresh_s : ℚ := 4

/-- The `_symbol_last_fetch` map: monotonic fetch time per
(exchange label, symbol). -/
def SymbolFetchState : Type := String × String → Option ℚ

/-- `_is_symbol_due`: a never-fetched symbol is due; otherwise it is due only
when at least `_min_symbol_refresh_s` seconds have passed since its last
fetch. -/
def _is_symbol_due (last_fetch : SymbolFetchState) (exchange_label symbol : String)
    (now : ℚ) : Bool :=
  match last_fetch (exchange_label, symbol) with
  | none => true
  | some last_ts => decide (now - last_ts ≥ _min_symbol_refresh_s)

/-- `_mark_symbol_fetched`: record `now` for the (exchange, symbol) key. -/
def _mark_symbol_fetched (last_fetch : SymbolFetchState)
    (exchange_label symbol : String) (now : ℚ) : SymbolFetchState :=
  fun k => if k = (exchange_label, symbol) then some now else last_fetch k

/-- The due-symbol restriction of `scan` (its `due_symbols` list
comprehension): requested symbols that pass `_is_symbol_due`. -/
def due_symbols (last_fetch : SymbolFetchState) (exchange_label : String)
    (symbol_list : List String) (now : ℚ) : List String :=
  symbol_list.filter fun symbol => _is_symbol_due last_fetch exchange_label symbol now

/-- One scan cycle for one exchange, from the throttling point of view: the
due symbols are fetched and marked at `now` (a fetch failure would simply
leave a symbol unmarked, which only makes it due again sooner). -/
def scan_cycle_fetch (last_fetch : SymbolFetchState) (exchange_label : String)
    (requested : List String) (now : ℚ) : List String × SymbolFetchState :=
  let due := due_symbols last_fetch exchange_label requested now
  (due, due.foldl (fun st symbol => _mark_symbol_fetched st exchange_label symbol now) last_fetch)

/-- Repeated scan cycles at the given times, each requesting the same symbol
list; returns every cycle's due-symbol fetch set and the final state. -/
def run_cycles (exchange_label : String) (requested : List String) :
    SymbolFetchState → List ℚ → List (List String) × SymbolFetchState
  | st, [] => ([], st)
  | st, now :: rest =>
    let step := scan_cycle_fetch st exchange_label requested now
    let tail := run_cycles exchange_label requested step.2 rest
    (step.1 :: tail.1, tail.2)

/-- Entries with mids 100, 100.2 and 140: the outlier-rejection example of
the spec. -/
def outlierDemoEntries : List ScanEntry :=
  [⟨"A", 100, 100, 100, none⟩, ⟨"B", 501/5, 501/5, 501/5, none⟩,
   ⟨"C", 140, 140, 140, none⟩]

/-- Tickers producing mids 300, 100 and 33: only the middle one survives
outlier rejection at 5%, so the pair is skipped. -/
def skipTickers : List (String × Option Ticker) :=
  [("A", some ⟨some 300, some 300, none, none⟩),
   ("B", some ⟨some 100, some 100, some 50, none⟩),
   ("C", some ⟨some 33, some 33, none, none⟩)]

/-- A fetch state with BTC/USDT on Binance last fetched at monotonic time 10. -/
def demoFetchState : SymbolFetchState :=
  fun k => if k = ("Binance", "BTC/USDT") then some 10 else none

/-- Raw market catalogue entry (src/scanner/market_discovery.py): each field
models the corresponding `market.get(...)` with `none` for an absent key. -/
structure Market where
  symbol : Option String
  contract : Option Bool
  future : Option Bool
  swap : Option Bool
  spot : Option Bool
  active : Option Bool
  quote : Option String
deriving DecidableEq, Repr

/-- Split a character list at the first `/`, keeping the remainder whole:
the char-level model of Python `symbol.split("/", maxsplit=1)`. -/
def breakAtSlash : List Char → Option (List Char × List Char)
  | [] => none
  | c :: cs =>
    if c = '/' then some ([], cs)
    else
      match breakAtSlash cs with
      | none => none
      | some (l, r) => some (c :: l, r)

/-- Python `str.strip()` (whitespace on both ends), character-wise. -/
def pyStrip (s : String) : String :=
  String.mk (((s.data.dropWhile Char.isWhitespace).reverse.dropWhile
    Char.isWhitespace).reverse)

/-- `_split_symbol`: split at the first `/` into stripped base and quote;
`(none, none)` when the symbol has no `/` (fewer than two parts). -/
def _split_symbol (symbol : String) : Option String × Option String :=
  match breakAtSlash symbol.data with
  | none => (none, none)
  | some (l, r) => (some (pyStrip (String.mk l)), some (pyStrip (String.mk r)))

/-- The per-market body of `_filter_markets`: returns the symbol when the
market passes every filter (symbol present, no `:`, has `/`, not
contract/future/swap, spot not false, active not false, resolved quote
currency in the allowed set), `none` otherwise.  The staged statistics
counters of the source, which only feed a log line, are not modelled. -/
def _market_symbol_if_eligible (quotes_set : List String) (market : Market) :
    Option String :=
  match market.symbol with
  | none => none
  | some symbol =>
    if symbol = "" ∨ symbol.data.contains ':' ∨ ¬ symbol.data.contains '/' then none
    else if market.contract = some true ∨ market.future = some true then none
    else if market.swap = some true then none
    else if market.spot = some false then none
    else if market.active = some false then none
    else
      let quoteField := match market.quote with
        | some q => q
        | none => ""
      let quoteResolved : Option String :=
        if quoteField = "" then
          match _split_symbol symbol with
          | (some base, some quote) =>
            if base = "" ∨ quote = "" then none else some quote
          | _ => none
        else some quoteField
      match quoteResolved with
      | none => none
      | some quote => if pyUpper quote ∈ quotes_set then some symbol else none

/-- `_filter_markets`: the set of eligible symbols of one exchange's
catalogue; the Python `set` accumulator is modelled as a first-encounter
deduplicated list (only membership and cardinality are consumed). -/
def _filter_markets (markets : List Market) (quotes_set : List String) :
    List String :=
  (markets.filterMap (_market_symbol_if_eligible quotes_set)).dedup

/-- Lexicographic comparison of character lists by code point: the order
Python's `sorted` uses on strings. -/
def charLe : List Char → List Char → Bool
  | [], _ => true
  | _ :: _, [] => false
  | a :: as, b :: bs =>
    if a.toNat < b.toNat then true
    else if b.toNat < a.toNat then false
    else charLe as bs

/-- Python's ascending string order, as a relation on `String`. -/
def pyStrLe (a b : String) : Prop := charLe a.data b.data = true

instance : DecidableRel pyStrLe := fun a b =>
  inferInstanceAs (Decidable (charLe a.data b.data = true))

def charLe_total : ∀ a b : List Char, charLe a b = true ∨ charLe b a = true := by
  intro a
  induction a with
  | nil => intro b; left; rfl
  | cons x xs ih =>
    intro b
    cases b with
    | nil => right; rfl
    | cons y ys =>
      by_cases h1 : x.toNat < y.toNat
      · left; simp [charLe, h1]
      · by_cases h2 : y.toNat < x.toNat
        · right; simp [charLe, h2]
        · rcases ih ys with h | h
          · left; simp [charLe, h1, h2, h]
          · right; simp [charLe, h1, h2, h]

def charLe_trans : ∀ a b c : List Char, charLe a b = true → charLe b c = true →
    charLe a c = true := by
  intro a
  induction a with
  | nil => intro b c _ _; rfl
  | cons x xs ih =>
    intro b c hab hbc
    cases b with
    | nil => simp [charLe] at hab
    | cons y ys =>
      cases c with
      | nil => simp [charLe] at hbc
      | cons z zs =>
        by_cases hxy : x.toNat < y.toNat
        · by_cases hyz : y.toNat < z.toNat
          · simp [charLe, Nat.lt_trans hxy hyz]
          · by_cases hzy : z.toNat < y.toNat
            · simp [charLe, hyz, hzy] at hbc
            · have hyz' : y.toNat = z.toNat :=
                Nat.le_antisymm (Nat.not_lt.mp hzy) (Nat.not_lt.mp hyz)
              simp [charLe, hyz' ▸ hxy]
        · by_cases hyx : y.toNat < x.toNat
          · simp [charLe, hxy, hyx] at hab
          · have hxy' : x.toNat = y.toNat :=
              Nat.le_antisymm (Nat.not_lt.mp hyx) (Nat.not_lt.mp hxy)
            have hab' : charLe xs ys = true := by
              simpa [charLe, hxy, hyx] using hab
            by_cases hyz : y.toNat < z.toNat
            · simp [charLe, hxy' ▸ hyz]
            · by_cases hzy : z.toNat < y.toNat
              · simp [charLe, hyz, hzy] at hbc
              · have hbc' : charLe ys zs = true := by
                  simpa [charLe, hyz, hzy] using hbc
                have hyz' : y.toNat = z.toNat :=
                  Nat.le_antisymm (Nat.not_lt.mp hzy) (Nat.not_lt.mp hyz)
                have hxz : ¬ x.toNat < z.toNat := by
                  rw [hxy', hyz']; exact Nat.lt_irrefl _
                have hzx : ¬ z.toNat < x.toNat := by
                  rw [hxy', hyz']; exact Nat.lt_irrefl _
                simp [charLe, hxz, hzx, ih ys zs hab' hbc']

instance : IsTotal String pyStrLe :=
  ⟨fun a b => (charLe_total a.data b.data).elim Or.inl Or.inr⟩

instance : IsTrans String pyStrLe :=
  ⟨fun a b c => charLe_trans a.data b.data c.data⟩

/-- The label → ccxt id table shared by discovery and scan. -/
def _exchange_map : List (String × String) :=
  [("Binance", "binance"), ("OKX", "okx"), ("Bybit", "bybit"),
   ("Gate.io", "gateio"), ("KuCoin", "kucoin"), ("Kraken", "kraken"),
   ("Coinbase", "coinbase"), ("Bitfinex", "bitfinex"), ("Bitget", "bitget"),
   ("HTX", "htx")]

/-- `self._exchange_map.get(label, label.lower())`. -/
def exchange_id_for (label : String) : String :=
  match _exchange_map.lookup label with
  | some eid => eid
  | none => pyLower label

/-- Cached markets payload (`MarketCacheEntry` as serialized to JSON): a
missing or unparseable cache file is `none` at the `Option CachePayload`
level; a file whose `markets` key is absent or not a list has
`markets = none`. -/
structure CachePayload where
  saved_at : String
  markets : Option (List Market)
deriving DecidableEq, Repr

/-- `MarketCache.load`: returns the cached market list exactly when the file
exists, parses, and its `markets` field is a list — the `saved_at` field is
never consulted. -/
def cache_load (file : Option CachePayload) : Option (List Market) :=
  match file with
  | none => none
  | some payload => payload.markets

/-- The per-exchange catalogue acquisition step of `discover` (lines 79–91):
try the cache only when `use_cache` and not `refresh_cache`; on a miss call
the gateway's `load_markets` and persist the raw result with a `saved_at`
timestamp.  Returns the markets used and the payload written to the cache
(`none` when nothing is saved). -/
def acquire_markets (use_cache refresh_cache : Bool)
    (cached : Option CachePayload) (gateway : List Market) (now_iso : String) :
    List Market × Option CachePayload :=
  let from_cache := if use_cache && !refresh_cache then cache_load cached else none
  match from_cache with
  | some markets => (markets, none)
  | none => (gateway, some ⟨now_iso, some gateway⟩)

/-- Container for eligible market pairs (`MarketDiscoveryResult`), with the
two maps as insertion-ordered association lists. -/
structure MarketDiscoveryResult where
  pair_exchanges : List (String × List String)
  eligible_pairs : List String
  exchange_counts : List (String × Nat)
deriving DecidableEq, Repr

/-- `pair_exchanges.setdefault(symbol, set()).add(exchange_label)` on an
insertion-ordered association list with duplicate-free value lists. -/
def add_pair_exchange (m : List (String × List String)) (symbol label : String) :
    List (String × List String) :=
  if m.any fun e => e.1 = symbol then
    m.map fun e =>
      if e.1 = symbol then (e.1, if label ∈ e.2 then e.2 else e.2 ++ [label])
      else e
  else m ++ [(symbol, [label])]

/-- `exchange_counts[label] = n` on an insertion-ordered association list. -/
def set_assoc (m : List (String × Nat)) (k : String) (v : Nat) :
    List (String × Nat) :=
  if m.any fun e => e.1 = k then m.map fun e => if e.1 = k then (k, v) else e
  else m ++ [(k, v)]

/-- The external collaborators `discover` reads: `hasattr(ccxt, ...)`, the
on-disk cache keyed by exchange id, the gateway's `load_markets`, and the
current ISO timestamp. -/
structure DiscoveryEnv where
  has_exchange : String → Bool
  cache : String → Option CachePayload
  load_markets : String → List Market
  now_iso : String

/-- The main loop of `discover`: per exchange, check the cancel signal,
resolve the ccxt id, skip unknown exchanges, acquire the catalogue (cache or
gateway, persisting on a miss), filter it, record the per-exchange count and
extend the pair → exchange-set map. -/
def discover_go (env : DiscoveryEnv) (quotes_set : List String)
    (use_cache refresh_cache : Bool) (should_cancel : Nat → Bool) :
    List String → Nat → List (String × List String) → List (String × Nat) →
    (String → Option CachePayload) →
    List (String × List String) × List (String × Nat) × (String → Option CachePayload)
  | [], _, pe, counts, cache => (pe, counts, cache)
  | label :: rest, index, pe, counts, cache =>
    if should_cancel index then (pe, counts, cache)
    else
      let eid := exchange_id_for label
      if env.has_exchange eid then
        let acq := acquire_markets use_cache refresh_cache (cache eid)
          (env.load_markets eid) env.now_iso
        let cache' : String → Option CachePayload :=
          match acq.2 with
          | none => cache
          | some payload => fun k => if k = eid then some payload else cache k
        let filtered := _filter_markets acq.1 quotes_set
        let counts' := set_assoc counts label filtered.length
        let pe' := filtered.foldl (fun m symbol => add_pair_exchange m symbol label) pe
        discover_go env quotes_set use_cache refresh_cache should_cancel rest
          (index + 1) pe' counts' cache'
      else
        discover_go env quotes_set use_cache refresh_cache should_cancel rest
          (index + 1) pe counts cache

/-- `MarketDiscoveryService.discover`: run the loop, then keep as
`eligible_pairs` the sorted pairs supported by at least `min_exchanges`
exchanges, and sort each entry's exchange set; the whole (unrestricted)
pair map is returned alongside.  Also returns the final cache state. -/
def discover (env : DiscoveryEnv) (exchanges : List String)
    (quotes : List String) (min_exchanges : Nat) (should_cancel : Nat → Bool)
    (use_cache refresh_cache : Bool) :
    MarketDiscoveryResult × (String → Option CachePayload) :=
  let quotes_set := quotes.map pyUpper
  let out := discover_go env quotes_set use_cache refresh_cache should_cancel
    exchanges 1 [] [] env.cache
  let pe := out.1
  let eligible := ((pe.filter fun e => min_exchanges ≤ e.2.length).map
    fun e => e.1).insertionSort pyStrLe
  let normalized := pe.map fun e => (e.1, e.2.insertionSort pyStrLe)
  (⟨normalized, eligible, out.2.1⟩, out.2.2)

/-- An active spot market BTC/USDT quoted in USDT. -/
def demoMarket : Market :=
  ⟨some "BTC/USDT", none, none, none, some true, some true, some "USDT"⟩

/-- A second, distinct active spot market (the gateway's answer in the cache
scenarios). -/
def gwMarket : Market :=
  ⟨some "ETH/USDT", none, none, none, some true, some true, some "USDT"⟩

/-- Discovery environment: every exchange exists, no cache, every gateway
catalogue is `[demoMarket]`. -/
def soloEnv : DiscoveryEnv :=
  ⟨fun _ => true, fun _ => none, fun _ => [demoMarket], "2026-10-12T00:00:00"⟩

/-- Discovery environment with an empty cache whose gateway returns
`[gwMarket]`. -/
def missEnv : DiscoveryEnv :=
  ⟨fun _ => true, fun _ => none, fun _ => [gwMarket], "2026-10-12T00:00:00"⟩

/-- Container for a scan cycle (frozen dataclass `TickerScanResult`). -/
structure TickerScanResult where
  updates : List TickerScanUpdate
  pair_count : Nat
  skipped_count : Nat
  ok_count : Nat
  fail_count : Nat
  errors : List String
deriving DecidableEq, Repr

/-- Payload the scan worker emits on success (frozen dataclass
`TickerScanUpdatePayload` in src/gui/scanner_window.py). -/
structure TickerScanUpdatePayload where
  run_id : Nat
  result : TickerScanResult
  latency_ms : ℚ
  first_error : Option String
deriving DecidableEq, Repr

/-- A row of the profit table (`ScannerRow` in
src/gui/models/scanner_table_model.py). -/
structure ScannerRow where
  pair : String
  best_buy_exchange : Option String
  buy_ask : Option ℚ
  best_sell_exchange : Option String
  sell_bid : Option ℚ
  spread_abs : Option ℚ
  spread_pct : Option ℚ
  volume_24h : Option ℚ
  stable_hits : Option Nat
  score : Option ℚ
  status : String
deriving DecidableEq, Repr

/-- The mutable `ScannerWindow` attributes the two scan-completion handlers
read or write: the scanning flag, the run epoch, the in-flight flag, the
profit rows, the eligible-pair list, the last-scan monotonic timestamp, the
last-updated wall-clock string, the log panel's lines and the status-bar
text. -/
structure ScannerWindowState where
  scanning : Bool
  run_id : Nat
  in_flight : Bool
  profit_rows : List ScannerRow
  eligible_pairs : List String
  last_scan_ts : Option ℚ
  last_updated : String
  log_lines : List String
  status_text : String
deriving DecidableEq, Repr

/-- The UI inputs and clocks the handlers read: the opportunity-threshold
spinbox value, `time.monotonic()` and the formatted `datetime.now()`. -/
structure WindowEnv where
  opportunity_threshold : ℚ
  now_monotonic : ℚ
  now_str : String

/-- One iteration of the row-update loop of `_on_ticker_updated`: above the
threshold the pair's row is refreshed (or appended) with status `"LIVE"`,
below it an existing row is refreshed with status `"УГАСЛО"` and a missing
row is left absent.  Rows are keyed by pair (the window only ever appends a
pair once, so the `row_map` mutation of the source coincides with updating
the matching row). -/
def _apply_scan_update (threshold : ℚ) (rows : List ScannerRow)
    (u : TickerScanUpdate) : List ScannerRow :=
  let hit := match u.spread_pct with
    | some p => decide (threshold ≤ p)
    | none => false
  if hit then
    if rows.any fun row => row.pair = u.pair then
      rows.map fun row =>
        if row.pair = u.pair then
          ⟨row.pair, u.best_buy_exchange, u.buy_ask, u.best_sell_exchange,
            u.sell_bid, u.spread_abs, u.spread_pct, u.volume_24h,
            row.stable_hits, row.score, "LIVE"⟩
        else row
    else rows ++ [⟨u.pair, u.best_buy_exchange, u.buy_ask, u.best_sell_exchange,
      u.sell_bid, u.spread_abs, u.spread_pct, u.volume_24h, none, none, "LIVE"⟩]
  else
    rows.map fun row =>
      if row.pair = u.pair then
        ⟨row.pair, u.best_buy_exchange, u.buy_ask, u.best_sell_exchange,
          u.sell_bid, u.spread_abs, u.spread_pct, u.volume_24h,
          row.stable_hits, row.score, "УГАСЛО"⟩
      else row

/-- The status-bar text `_update_status` renders (number formatting via
`toString`). -/
def _update_status_text (scanning : Bool) (eligible profit live : Nat)
    (last_updated : String) : String :=
  "Сканирование: " ++ (if scanning then "ВКЛ" else "ВЫКЛ")
    ++ " | Eligible: " ++ toString eligible
    ++ " | Профитные: " ++ toString profit
    ++ " | LIVE: " ++ toString live
    ++ " | Обновлено: " ++ last_updated

/-- The log line `_log_update` appends (the float's `:.0f` formatting is
abstracted by `toString`). -/
def _log_update_line (now_str : String) (ok fail : Nat) (latency : ℚ)
    (first_error : Option String) : String :=
  let message := now_str ++ " | ok=" ++ toString ok ++ " fail=" ++ toString fail
    ++ " | latency=" ++ toString latency ++ "ms"
  match first_error with
  | none => message
  | some err => message ++ " | reason=" ++ err

/-- `_on_ticker_updated`: returns unchanged when the window is not scanning
or the payload's run id differs from the current epoch; otherwise clears the
in-flight flag, applies every update to the rows, stamps the scan/update
times, re-renders the status bar and logs the cycle summary.  (The source's
final `_log_update` call reads `update.latency_ms` after the loop variable
`update` has shadowed the payload — a slip that raises `AttributeError` when
`updates` is nonempty; the evident intent, the payload's fields, is modelled
here, which is irrelevant to the guard behaviour verified below.) -/
def _on_ticker_updated (env : WindowEnv) (st : ScannerWindowState)
    (update : TickerScanUpdatePayload) : ScannerWindowState :=
  if st.scanning = false then st
  else if update.run_id ≠ st.run_id then st
  else
    let result := update.result
    let rows := result.updates.foldl
      (_apply_scan_update env.opportunity_threshold) st.profit_rows
    let live := (rows.filter fun row => row.status = "LIVE").length
    { st with
      in_flight := false,
      profit_rows := rows,
      last_scan_ts := some env.now_monotonic,
      last_updated := env.now_str,
      status_text := _update_status_text st.scanning st.eligible_pairs.length
        rows.length live env.now_str,
      log_lines := st.log_lines ++ [_log_update_line env.now_str
        result.ok_count result.fail_count update.latency_ms update.first_error] }

/-- `_on_ticker_failed`: returns unchanged when the run id differs from the
current epoch; otherwise clears the in-flight flag and logs the error and a
failed-cycle summary. -/
def _on_ticker_failed (env : WindowEnv) (st : ScannerWindowState)
    (run_id : Nat) (message : String) : ScannerWindowState :=
  if run_id ≠ st.run_id then st
  else
    { st with
      in_flight := false,
      log_lines := st.log_lines
        ++ ["[" ++ env.now_str ++ "] " ++ ("Ошибка сканирования тикеров: " ++ message),
            _log_update_line env.now_str 0 1 0 (some message)] }

/-- A populated window state at epoch 2, scanning, with one live row and a
job in flight. -/
def demoWindowState : ScannerWindowState :=
  ⟨true, 2, true,
    [⟨"BTC/USDT", some "A", some 100, some "B", some 102, some 2, some 1,
      some 5, none, none, "LIVE"⟩],
    ["BTC/USDT"], some 100, "12:00:00", ["log0"], "status0"⟩

/-- A completion payload carrying the stale epoch 1 and a row-changing
update. -/
def demoPayload : TickerScanUpdatePayload :=
  ⟨1, ⟨[⟨"BTC/USDT", some "B", some 90, some "A", some 95, some 5, some 5,
      some 9⟩], 1, 0, 2, 0, []⟩, 55, none⟩

/-- Clocks and threshold at the moment the stale completion arrives. -/
def demoWindowEnv : WindowEnv := ⟨1, 200, "12:00:01"⟩

/-! ### Theorems -/

theorem pyMinBy_mem {α : Type} (key : α → ℚ) (x : α) (xs : List α) :
    pyMinBy key x xs ∈ x :: xs := by
  induction xs generalizing x with
  | nil => simp [pyMinBy]
  | cons y ys ih =>
    have hstep : pyMinBy key x (y :: ys)
        = pyMinBy key (if key y < key x then y else x) ys := by
      simp [pyMinBy]
    have h := ih (if key y < key x then y else x)
    rw [List.mem_cons] at h
    rw [hstep, List.mem_cons, List.mem_cons]
    rcases h with h | h
    · rw [h]; split
      · exact Or.inr (Or.inl rfl)
      · exact Or.inl rfl
    · exact Or.inr (Or.inr h)

theorem pyMinBy_le {α : Type} (key : α → ℚ) (x : α) (xs : List α) :
    ∀ y ∈ x :: xs, key (pyMinBy key x xs) ≤ key y := by
  induction xs generalizing x with
  | nil => intro y hy; simp at hy; simp [pyMinBy, hy]
  | cons z zs ih =>
    intro y hy
    have hacc : ∀ w ∈ (if key z < key x then z else x) :: zs,
        key (pyMinBy key (if key z < key x then z else x) zs) ≤ key w :=
      ih (if key z < key x then z else x)
    have hstep : pyMinBy key x (z :: zs)
        = pyMinBy key (if key z < key x then z else x) zs := by
      simp [pyMinBy]
    have haccx : key (if key z < key x then z else x) ≤ key x := by
      split <;> [exact le_of_lt (by assumption); exact le_refl _]
    have haccz : key (if key z < key x then z else x) ≤ key z := by
      split
      · exact le_refl _
      · exact le_of_not_lt (by assumption)
    have hself : key (pyMinBy key (if key z < key x then z else x) zs)
        ≤ key (if key z < key x then z else x) :=
      hacc _ (List.mem_cons_self _ _)
    rw [List.mem_cons, List.mem_cons] at hy
    rcases hy with rfl | rfl | hy
    · rw [hstep]; exact le_trans hself haccx
    · rw [hstep]; exact le_trans hself haccz
    · rw [hstep]; exact hacc _ (List.mem_cons_of_mem _ hy)

theorem pyMinBy_of_le {α : Type} (key : α → ℚ) (x : α) (xs : List α)
    (h : ∀ y ∈ xs, key x ≤ key y) : pyMinBy key x xs = x := by
  induction xs with
  | nil => rfl
  | cons y ys ih =>
    have hxy : ¬ key y < key x := not_lt.mpr (h y (List.mem_cons_self _ _))
    simp only [pyMinBy, List.foldl_cons, if_neg hxy] at *
    exact ih fun z hz => h z (List.mem_cons_of_mem _ hz)

theorem pyMinBy_first {α : Type} (key : α → ℚ) (m : α) (l₁ l₂ : List α) :
    ∀ a : α, key m < key a → (∀ y ∈ l₁, key m < key y) →
      (∀ y ∈ l₂, key m ≤ key y) → pyMinBy key a (l₁ ++ m :: l₂) = m := by
  induction l₁ with
  | nil =>
    intro a ha _ h₂
    simp only [List.nil_append, pyMinBy, List.foldl_cons, if_pos ha]
    exact pyMinBy_of_le key m l₂ h₂
  | cons b l₁ ih =>
    intro a ha h₁ h₂
    have hb : key m < key b := h₁ b (List.mem_cons_self _ _)
    have hb' : key m < key (if key b < key a then b else a) := by
      split <;> assumption
    simp only [List.cons_append, pyMinBy, List.foldl_cons]
    exact ih _ hb' (fun y hy => h₁ y (List.mem_cons_of_mem _ hy)) h₂

theorem pyMaxBy_mem {α : Type} (key : α → ℚ) (x : α) (xs : List α) :
    pyMaxBy key x xs ∈ x :: xs := by
  induction xs generalizing x with
  | nil => simp [pyMaxBy]
  | cons y ys ih =>
    have hstep : pyMaxBy key x (y :: ys)
        = pyMaxBy key (if key x < key y then y else x) ys := by
      simp [pyMaxBy]
    have h := ih (if key x < key y then y else x)
    rw [List.mem_cons] at h
    rw [hstep, List.mem_cons, List.mem_cons]
    rcases h with h | h
    · rw [h]; split
      · exact Or.inr (Or.inl rfl)
      · exact Or.inl rfl
    · exact Or.inr (Or.inr h)

theorem pyMaxBy_ge {α : Type} (key : α → ℚ) (x : α) (xs : List α) :
    ∀ y ∈ x :: xs, key y ≤ key (pyMaxBy key x xs) := by
  induction xs generalizing x with
  | nil => intro y hy; simp at hy; simp [pyMaxBy, hy]
  | cons z zs ih =>
    intro y hy
    have hacc : ∀ w ∈ (if key x < key z then z else x) :: zs,
        key w ≤ key (pyMaxBy key (if key x < key z then z else x) zs) :=
      ih (if key x < key z then z else x)
    have hstep : pyMaxBy key x (z :: zs)
        = pyMaxBy key (if key x < key z then z else x) zs := by
      simp [pyMaxBy]
    have haccx : key x ≤ key (if key x < key z then z else x) := by
      split <;> [exact le_of_lt (by assumption); exact le_refl _]
    have haccz : key z ≤ key (if key x < key z then z else x) := by
      split
      · exact le_refl _
      · exact le_of_not_lt (by assumption)
    have hself : key (if key x < key z then z else x)
        ≤ key (pyMaxBy key (if key x < key z then z else x) zs) :=
      hacc _ (List.mem_cons_self _ _)
    rw [List.mem_cons, List.mem_cons] at hy
    rcases hy with rfl | rfl | hy
    · rw [hstep]; exact le_trans haccx hself
    · rw [hstep]; exact le_trans haccz hself
    · rw [hstep]; exact hacc _ (List.mem_cons_of_mem _ hy)

theorem pyMaxBy_of_ge {α : Type} (key : α → ℚ) (x : α) (xs : List α)
    (h : ∀ y ∈ xs, key y ≤ key x) : pyMaxBy key x xs = x := by
  induction xs with
  | nil => rfl
  | cons y ys ih =>
    have hxy : ¬ key x < key y := not_lt.mpr (h y (List.mem_cons_self _ _))
    simp only [pyMaxBy, List.foldl_cons, if_neg hxy] at *
    exact ih fun z hz => h z (List.mem_cons_of_mem _ hz)

theorem pyMaxBy_first {α : Type} (key : α → ℚ) (m : α) (l₁ l₂ : List α) :
    ∀ a : α, key a < key m → (∀ y ∈ l₁, key y < key m) →
      (∀ y ∈ l₂, key y ≤ key m) → pyMaxBy key a (l₁ ++ m :: l₂) = m := by
  induction l₁ with
  | nil =>
    intro a ha _ h₂
    simp only [List.nil_append, pyMaxBy, List.foldl_cons, if_pos ha]
    exact pyMaxBy_of_ge key m l₂ h₂
  | cons b l₁ ih =>
    intro a ha h₁ h₂
    have hb : key b < key m := h₁ b (List.mem_cons_self _ _)
    have hb' : key (if key a < key b then b else a) < key m := by
      split <;> assumption
    simp only [List.cons_append, pyMaxBy, List.foldl_cons]
    exact ih _ hb' (fun y hy => h₁ y (List.mem_cons_of_mem _ hy)) h₂

theorem analyze_eq_of_nil (quotes : List QuoteDict) (m : ℚ) (ws : Bool) (n : Nat)
    (h : _filter_valid quotes ws = []) :
    analyze quotes m ws n = ⟨none, none, 0, 0, []⟩ := by
  unfold analyze
  rw [h]

theorem analyze_eq_of_cons (quotes : List QuoteDict) (m : ℚ) (ws : Bool) (n : Nat)
    (q : QuoteSnapshot) (qs : List QuoteSnapshot)
    (h : _filter_valid quotes ws = q :: qs) :
    analyze quotes m ws n =
      ⟨some (pyMinBy (fun x => x.ask) q qs),
       some (pyMaxBy (fun x => x.bid) q qs),
       (pyMaxBy (fun x => x.bid) q qs).bid - (pyMinBy (fun x => x.ask) q qs).ask,
       (if (pyMinBy (fun x => x.ask) q qs).ask ≠ 0 then
          ((pyMaxBy (fun x => x.bid) q qs).bid - (pyMinBy (fun x => x.ask) q qs).ask)
            / (pyMinBy (fun x => x.ask) q qs).ask * 100
        else 0),
       _build_opportunities (q :: qs) m n⟩ := by
  unfold analyze
  rw [h]

theorem mem_filter_valid_pos (quotes : List QuoteDict) (ws : Bool) (q : QuoteSnapshot)
    (h : q ∈ _filter_valid quotes ws) : 0 < q.bid ∧ 0 < q.ask := by
  rw [_filter_valid, List.mem_filterMap] at h
  obtain ⟨d, _hd, h⟩ := h
  dsimp only at h
  split at h
  · exact Option.noConfusion h
  · split at h
    · exact Option.noConfusion h
    · rename_i hpos
      push_neg at hpos
      split at h
      all_goals split at h
      all_goals first
        | exact Option.noConfusion h
        | (rw [Option.some_inj] at h
           subst h
           exact ⟨hpos.1, hpos.2⟩)

theorem mem_cross_opportunities (quotes : List QuoteSnapshot) (m : ℚ) (o : Opportunity) :
    o ∈ _cross_opportunities quotes m ↔
      ∃ buy ∈ quotes, ∃ sell ∈ quotes, buy.exchange ≠ sell.exchange ∧
        ¬ (mkOpportunity buy sell).spread_pct < m ∧ o = mkOpportunity buy sell := by
  simp only [_cross_opportunities, List.mem_flatMap, List.mem_filterMap]
  constructor
  · rintro ⟨buy, hbuy, sell, hsell, ho⟩
    split at ho
    · exact Option.noConfusion ho
    · rename_i hne
      split at ho
      · exact Option.noConfusion ho
      · rename_i hge
        rw [Option.some_inj] at ho
        exact ⟨buy, hbuy, sell, hsell, hne, hge, ho.symm⟩
  · rintro ⟨buy, hbuy, sell, hsell, hne, hge, rfl⟩
    refine ⟨buy, hbuy, sell, hsell, ?_⟩
    simp only [if_neg hne, if_neg hge]

/-- C1: `analyze` returns all-empty output (no best quotes, zero spreads, no
opportunities) when no quote passes the validity filter — totality of the
embedding models "never raises" — and otherwise returns a best buy whose ask
is minimal over the valid quotes, a best sell whose bid is maximal, and an
absolute spread equal to `best_sell.bid - best_buy.ask` exactly. -/
theorem C1_analyze_correct (quotes : List QuoteDict) (min_spread_pct : ℚ)
    (only_ws : Bool) (top_n : Nat) :
    (_filter_valid quotes only_ws = [] →
      analyze quotes min_spread_pct only_ws top_n = ⟨none, none, 0, 0, []⟩) ∧
    (_filter_valid quotes only_ws ≠ [] →
      ∃ bb bs, (analyze quotes min_spread_pct only_ws top_n).best_buy = some bb ∧
        (analyze quotes min_spread_pct only_ws top_n).best_sell = some bs ∧
        bb ∈ _filter_valid quotes only_ws ∧ bs ∈ _filter_valid quotes only_ws ∧
        (∀ q ∈ _filter_valid quotes only_ws, bb.ask ≤ q.ask) ∧
        (∀ q ∈ _filter_valid quotes only_ws, q.bid ≤ bs.bid) ∧
        (analyze quotes min_spread_pct only_ws top_n).spread_abs = bs.bid - bb.ask) := by
  constructor
  · exact analyze_eq_of_nil quotes min_spread_pct only_ws top_n
  · intro hne
    cases hv : _filter_valid quotes only_ws with
    | nil => exact absurd hv hne
    | cons q qs =>
      rw [analyze_eq_of_cons quotes min_spread_pct only_ws top_n q qs hv]
      refine ⟨pyMinBy (fun x => x.ask) q qs, pyMaxBy (fun x => x.bid) q qs,
        rfl, rfl, ?_, ?_, ?_, ?_, rfl⟩
      · exact pyMinBy_mem _ q qs
      · exact pyMaxBy_mem _ q qs
      · exact pyMinBy_le _ q qs
      · exact pyMaxBy_ge _ q qs

/-- C9: the opportunity list of `analyze` is exactly the stable descending
sort (by `spread_pct`) of all cross pairs of valid quotes with distinct
exchange names and `spread_pct ≥ min_spread_pct`, truncated to `top_n`; each
entry carries `spread_abs = sell.bid - buy.ask` exactly and
`spread_pct = (sell.bid - buy.ask) / buy.ask * 100`; the list is sorted
descending and has at most `top_n` entries. -/
theorem C9_opportunities_spec (quotes : List QuoteDict) (m : ℚ) (ws : Bool) (n : Nat) :
    (analyze quotes m ws n).opportunities
      = ((_cross_opportunities (_filter_valid quotes ws) m).insertionSort oppDescRel).take n ∧
    (∀ o ∈ (analyze quotes m ws n).opportunities,
      ∃ buy ∈ _filter_valid quotes ws, ∃ sell ∈ _filter_valid quotes ws,
        buy.exchange ≠ sell.exchange ∧ o = mkOpportunity buy sell ∧
        o.spread_abs = sell.bid - buy.ask ∧
        o.spread_pct = (sell.bid - buy.ask) / buy.ask * 100 ∧
        m ≤ o.spread_pct) ∧
    (∀ buy ∈ _filter_valid quotes ws, ∀ sell ∈ _filter_valid quotes ws,
      buy.exchange ≠ sell.exchange → m ≤ (mkOpportunity buy sell).spread_pct →
        mkOpportunity buy sell ∈ _cross_opportunities (_filter_valid quotes ws) m) ∧
    (analyze quotes m ws n).opportunities.Pairwise oppDescRel ∧
    (analyze quotes m ws n).opportunities.length ≤ n := by
  have heq : (analyze quotes m ws n).opportunities
      = ((_cross_opportunities (_filter_valid quotes ws) m).insertionSort oppDescRel).take n := by
    cases hv : _filter_valid quotes ws with
    | nil =>
      rw [analyze_eq_of_nil quotes m ws n hv]
      simp [_cross_opportunities]
    | cons q qs =>
      rw [analyze_eq_of_cons quotes m ws n q qs hv]
      rfl
  refine ⟨heq, ?_, ?_, ?_, ?_⟩
  · intro o ho
    rw [heq] at ho
    have ho' : o ∈ (_cross_opportunities (_filter_valid quotes ws) m).insertionSort oppDescRel :=
      List.take_subset n _ ho
    rw [List.mem_insertionSort] at ho'
    rw [mem_cross_opportunities] at ho'
    obtain ⟨buy, hbuy, sell, hsell, hne, hge, rfl⟩ := ho'
    have hpos := mem_filter_valid_pos quotes ws buy hbuy
    have hask : buy.ask ≠ 0 := ne_of_gt hpos.2
    refine ⟨buy, hbuy, sell, hsell, hne, rfl, rfl, ?_, not_lt.mp hge⟩
    show (if buy.ask ≠ 0 then (sell.bid - buy.ask) / buy.ask * 100 else 0)
        = (sell.bid - buy.ask) / buy.ask * 100
    rw [if_pos hask]
  · intro buy hbuy sell hsell hne hge
    rw [mem_cross_opportunities]
    exact ⟨buy, hbuy, sell, hsell, hne, not_lt.mpr hge, rfl⟩
  · rw [heq]
    have hs : ((_cross_opportunities (_filter_valid quotes ws) m).insertionSort
        oppDescRel).Sorted oppDescRel :=
      List.sorted_insertionSort oppDescRel _
    exact hs.sublist (List.take_sublist n _)
  · rw [heq, List.length_take]
    exact min_le_left n _

/-- C10: `analyze` is deterministic (equal inputs give structurally equal
outputs), and when several valid quotes tie at the minimal ask (resp. maximal
bid), `best_buy` (resp. `best_sell`) is the first such quote in input order. -/
theorem C10_analyze_deterministic_tie_break :
    (∀ (q₁ q₂ : List QuoteDict) (m₁ m₂ : ℚ) (ws₁ ws₂ : Bool) (n₁ n₂ : Nat),
      q₁ = q₂ → m₁ = m₂ → ws₁ = ws₂ → n₁ = n₂ →
      analyze q₁ m₁ ws₁ n₁ = analyze q₂ m₂ ws₂ n₂) ∧
    (∀ (quotes : List QuoteDict) (m : ℚ) (ws : Bool) (n : Nat)
        (l₁ l₂ : List QuoteSnapshot) (q : QuoteSnapshot),
      _filter_valid quotes ws = l₁ ++ q :: l₂ →
      (∀ p ∈ l₁, q.ask < p.ask) → (∀ p ∈ l₁ ++ q :: l₂, q.ask ≤ p.ask) →
      (analyze quotes m ws n).best_buy = some q) ∧
    (∀ (quotes : List QuoteDict) (m : ℚ) (ws : Bool) (n : Nat)
        (l₁ l₂ : List QuoteSnapshot) (q : QuoteSnapshot),
      _filter_valid quotes ws = l₁ ++ q :: l₂ →
      (∀ p ∈ l₁, p.bid < q.bid) → (∀ p ∈ l₁ ++ q :: l₂, p.bid ≤ q.bid) →
      (analyze quotes m ws n).best_sell = some q) := by
  refine ⟨?_, ?_, ?_⟩
  · rintro q₁ q₂ m₁ m₂ ws₁ ws₂ n₁ n₂ rfl rfl rfl rfl
    rfl
  · intro quotes m ws n l₁ l₂ q hv hlt hle
    cases l₁ with
    | nil =>
      rw [analyze_eq_of_cons quotes m ws n q l₂ hv]
      have : pyMinBy (fun x => x.ask) q l₂ = q :=
        pyMinBy_of_le _ q l₂ fun y hy =>
          hle y (List.mem_append_right [] (List.mem_cons_of_mem _ hy))
      simp [this]
    | cons a l₁ =>
      rw [List.cons_append] at hv
      rw [analyze_eq_of_cons quotes m ws n a (l₁ ++ q :: l₂) hv]
      have ha : q.ask < a.ask := hlt a (List.mem_cons_self _ _)
      have : pyMinBy (fun x => x.ask) a (l₁ ++ q :: l₂) = q :=
        pyMinBy_first _ q l₁ l₂ a ha
          (fun y hy => hlt y (List.mem_cons_of_mem _ hy))
          (fun y hy => hle y (by
            rw [List.cons_append]
            exact List.mem_cons_of_mem _
              (List.mem_append_right l₁ (List.mem_cons_of_mem _ hy))))
      simp [this]
  · intro quotes m ws n l₁ l₂ q hv hlt hle
    cases l₁ with
    | nil =>
      rw [analyze_eq_of_cons quotes m ws n q l₂ hv]
      have : pyMaxBy (fun x => x.bid) q l₂ = q :=
        pyMaxBy_of_ge _ q l₂ fun y hy =>
          hle y (List.mem_append_right [] (List.mem_cons_of_mem _ hy))
      simp [this]
    | cons a l₁ =>
      rw [List.cons_append] at hv
      rw [analyze_eq_of_cons quotes m ws n a (l₁ ++ q :: l₂) hv]
      have ha : a.bid < q.bid := hlt a (List.mem_cons_self _ _)
      have : pyMaxBy (fun x => x.bid) a (l₁ ++ q :: l₂) = q :=
        pyMaxBy_first _ q l₁ l₂ a ha
          (fun y hy => hlt y (List.mem_cons_of_mem _ hy))
          (fun y hy => hle y (by
            rw [List.cons_append]
            exact List.mem_cons_of_mem _
              (List.mem_append_right l₁ (List.mem_cons_of_mem _ hy))))
      simp [this]

/-- Witness for C1 at the spec's §8 scenario quotes. -/
theorem C1_analyze_correct_witness :
    _filter_valid demoQuotes false ≠ [] ∧
    (∃ bb bs, (analyze demoQuotes 0 false 10).best_buy = some bb ∧
      (analyze demoQuotes 0 false 10).best_sell = some bs ∧
      bb ∈ _filter_valid demoQuotes false ∧ bs ∈ _filter_valid demoQuotes false ∧
      (∀ q ∈ _filter_valid demoQuotes false, bb.ask ≤ q.ask) ∧
      (∀ q ∈ _filter_valid demoQuotes false, q.bid ≤ bs.bid) ∧
      (analyze demoQuotes 0 false 10).spread_abs = bs.bid - bb.ask) :=
  ⟨by decide, (C1_analyze_correct demoQuotes 0 false 10).2 (by decide)⟩

/-- Witness for C9: the qualifying pair (buy on A, sell on B) of the demo
quote set is indeed listed among the cross opportunities. -/
theorem C9_opportunities_spec_witness :
    mkOpportunity snapA snapB ∈ _cross_opportunities (_filter_valid demoQuotes false) 0 :=
  (C9_opportunities_spec demoQuotes 0 false 10).2.2.1 snapA (by decide) snapB
    (by decide) (by decide) (by norm_num [mkOpportunity, snapA, snapB])

/-- Witness for C10: with two quotes tied at ask 100 and bid 99, the first
one (exchange A) is selected both as best buy and as best sell. -/
theorem C10_analyze_deterministic_tie_break_witness :
    (analyze tieQuotes 0 false 10).best_buy = some tieSnapA ∧
    (analyze tieQuotes 0 false 10).best_sell = some tieSnapA :=
  ⟨C10_analyze_deterministic_tie_break.2.1 tieQuotes 0 false 10 [] [tieSnapB]
      tieSnapA (by decide) (by decide) (by decide),
    C10_analyze_deterministic_tie_break.2.2 tieQuotes 0 false 10 [] [tieSnapB]
      tieSnapA (by decide) (by decide) (by decide)⟩

/-- C2: a `submit` under a key that is still in flight returns `none` and
changes nothing; the completion callback removes the key on both exit paths
(normal return and raised exception), so a subsequent `submit` with the same
key returns a job handle again. -/
theorem C2_submit_dedup {α : Type} (st : Finset String) (key : String)
    (run_id run_id' : Nat) (outcome : Except String α) :
    (key ∈ st → submit st key run_id = (none, st)) ∧
    (key ∉ st →
      submit st key run_id = (some (JobEvent.started run_id), insert key st)) ∧
    key ∉ (_done st key run_id outcome).1 ∧
    (_done st key run_id outcome).2.getLast? = some (JobEvent.finished run_id) ∧
    (submit (_done st key run_id outcome).1 key run_id').1
      = some (JobEvent.started run_id') := by
  refine ⟨fun h => ?_, fun h => ?_, ?_, ?_, ?_⟩
  · simp [submit, h]
  · simp [submit, h]
  · cases outcome <;> simp [_done]
  · cases outcome <;> simp [_done]
  · cases outcome <;> simp [submit, _done]

/-- Witness for C2: with key "scan" already in flight, a second submit is
rejected; after a failing completion and after a normal completion the key is
free again and a third submit succeeds. -/
theorem C2_submit_dedup_witness :
    (submit {"scan"} "scan" 1 = (none, {"scan"})) ∧
    "scan" ∉ (_done ({"scan"} : Finset String) "scan" 1 (Except.error ("boom") : Except String Unit)).1 ∧
    (submit (_done ({"scan"} : Finset String) "scan" 1 (Except.error ("boom") : Except String Unit)).1
        "scan" 2).1 = some (JobEvent.started 2) ∧
    "scan" ∉ (_done ({"scan"} : Finset String) "scan" 1 (Except.ok ())).1 ∧
    (submit (_done ({"scan"} : Finset String) "scan" 1 (Except.ok ())).1
        "scan" 2).1 = some (JobEvent.started 2) :=
  ⟨(C2_submit_dedup (α := Unit) {"scan"} "scan" 1 2 (Except.error "boom")).1 (by decide),
    (C2_submit_dedup (α := Unit) {"scan"} "scan" 1 2 (Except.error "boom")).2.2.1,
    (C2_submit_dedup (α := Unit) {"scan"} "scan" 1 2 (Except.error "boom")).2.2.2.2,
    (C2_submit_dedup ({"scan"} : Finset String) "scan" 1 2 (Except.ok ())).2.2.1,
    (C2_submit_dedup ({"scan"} : Finset String) "scan" 1 2 (Except.ok ())).2.2.2.2⟩

/-- C3: outlier rejection keeps exactly the entries whose mid deviates from
the median mid by at most `outlier_pct` percent; a pair with at least two
entries but fewer than two survivors produces no update and counts as
skipped; and on the spec's example (mids 100, 100.2, 140 at 5%) exactly the
140 entry is removed, leaving two survivors. -/
theorem C3_outlier_rejection (entries : List ScanEntry) (outlier_pct : ℚ)
    (pair : String) (ets : List (String × Option Ticker)) (maxI : Option ℚ) :
    (_survivors entries outlier_pct
      = entries.filter fun e =>
          |e.mid - pymedian (entries.map fun x => x.mid)|
            / pymedian (entries.map fun x => x.mid) * 100 ≤ outlier_pct) ∧
    (2 ≤ (_pair_entries ets maxI).length →
      (_survivors (_pair_entries ets maxI) outlier_pct).length < 2 →
      _scan_pair pair ets maxI outlier_pct = none) ∧
    (_scan_pair pair ets maxI outlier_pct = none →
      _scan_pairs [(pair, ets)] maxI outlier_pct = ([], 1)) ∧
    _survivors outlierDemoEntries 5
      = [⟨"A", 100, 100, 100, none⟩, ⟨"B", 501/5, 501/5, 501/5, none⟩] := by
  refine ⟨?_, ?_, ?_, ?_⟩
  · unfold _survivors
    apply List.filter_congr
    intro a _
    exact decide_eq_decide.mpr not_lt
  · intro h1 h2
    have h1' : ¬ (_pair_entries ets maxI).length < 2 := by omega
    simp [_scan_pair, h1', h2]
  · intro h
    simp [_scan_pairs, h]
  · have hmed : pymedian [(100 : ℚ), 501/5, 140] = 501/5 := by
      norm_num [pymedian, List.insertionSort, List.orderedInsert]
    have h1 : |(1 : ℚ)/5| = 1/5 := abs_of_nonneg (by norm_num)
    have h2 : |(199 : ℚ)/5| = 199/5 := abs_of_nonneg (by norm_num)
    norm_num [_survivors, outlierDemoEntries, List.map, hmed, List.filter, h1, h2]

/-- Witness for C3: mids 300, 100, 33 at 5% leave a single survivor, so the
pair is skipped and increments the skipped counter. -/
theorem C3_outlier_rejection_witness :
    _scan_pair "X/Y" skipTickers none 5 = none ∧
    _scan_pairs [("X/Y", skipTickers)] none 5 = ([], 1) := by
  have hentries : _pair_entries skipTickers none
      = [⟨"A", 300, 300, 300, none⟩, ⟨"B", 100, 100, 100, some 50⟩,
         ⟨"C", 33, 33, 33, none⟩] := by
    norm_num [_pair_entries, skipTickers, List.filterMap, _pick_volume,
      intrabookExceeds]
  have hmed : pymedian [(300 : ℚ), 100, 33] = 100 := by
    norm_num [pymedian, List.insertionSort, List.orderedInsert]
  have habs1 : |(200 : ℚ)| = 200 := abs_of_nonneg (by norm_num)
  have habs2 : |(-67 : ℚ)| = 67 := by rw [abs_of_nonpos] <;> norm_num
  have habs3 : |(67 : ℚ)| = 67 := abs_of_nonneg (by norm_num)
  have hsurv : (_survivors (_pair_entries skipTickers none) 5).length < 2 := by
    rw [hentries]
    norm_num [_survivors, List.map, hmed, List.filter, habs1, habs2, habs3]
  have hlen : 2 ≤ (_pair_entries skipTickers none).length := by
    rw [hentries]; norm_num
  have hpair :=
    (C3_outlier_rejection (_pair_entries skipTickers none) 5 "X/Y" skipTickers
      none).2.1 hlen hsurv
  exact ⟨hpair,
    (C3_outlier_rejection (_pair_entries skipTickers none) 5 "X/Y" skipTickers
      none).2.2.1 hpair⟩

theorem mark_foldl_preserve (l : List String) (st0 : SymbolFetchState)
    (label sym : String) (now : ℚ) (hns : sym ∉ l) :
    (l.foldl (fun st symbol => _mark_symbol_fetched st label symbol now) st0)
      (label, sym) = st0 (label, sym) := by
  induction l generalizing st0 with
  | nil => rfl
  | cons a l ih =>
    have hne : sym ≠ a := fun e => hns (e ▸ List.mem_cons_self a l)
    rw [List.foldl_cons,
      ih (_mark_symbol_fetched st0 label a now)
        (fun hm => hns (List.mem_cons_of_mem _ hm))]
    show (if (label, sym) = (label, a) then some now else st0 (label, sym))
        = st0 (label, sym)
    exact if_neg fun hc => hne (congrArg Prod.snd hc)

theorem scan_cycle_not_due (st : SymbolFetchState) (label sym : String)
    (T now : ℚ) (requested : List String) (hT : st (label, sym) = some T)
    (h : now - T < _min_symbol_refresh_s) :
    sym ∉ (scan_cycle_fetch st label requested now).1 ∧
    (scan_cycle_fetch st label requested now).2 (label, sym) = some T := by
  have hdue : _is_symbol_due st label sym now = false := by
    simp only [_is_symbol_due, hT]
    exact decide_eq_false (not_le.mpr h)
  have hnmem : sym ∉ due_symbols st label requested now := by
    intro hm
    rw [due_symbols, List.mem_filter] at hm
    rw [hdue] at hm
    exact Bool.false_ne_true hm.2
  refine ⟨hnmem, ?_⟩
  show (List.foldl _ st (due_symbols st label requested now)) (label, sym) = some T
  rw [mark_foldl_preserve _ st label sym now hnmem]
  exact hT

theorem run_cycles_not_due (label sym : String) (requested : List String) (T : ℚ) :
    ∀ (times : List ℚ) (st : SymbolFetchState), st (label, sym) = some T →
      (∀ t ∈ times, t - T < _min_symbol_refresh_s) →
      ∀ d ∈ (run_cycles label requested st times).1, sym ∉ d := by
  intro times
  induction times with
  | nil => intro st _ _ d hd; simp [run_cycles] at hd
  | cons t rest ih =>
    intro st hT htimes d hd
    simp only [run_cycles, List.mem_cons] at hd
    have hstep := scan_cycle_not_due st label sym T t requested hT
      (htimes t (List.mem_cons_self _ _))
    rcases hd with rfl | hd
    · exact hstep.1
    · exact ih (scan_cycle_fetch st label requested t).2 hstep.2
        (fun s hs => htimes s (List.mem_cons_of_mem _ hs)) d hd

/-- C6: the minimum refresh interval is 4 seconds; a symbol marked fetched at
monotonic time `T` is excluded from the due-symbol fetch set of any cycle
starting at `now` with `now - T < 4` (and its recorded fetch time is
untouched), stays excluded over arbitrarily many such cycles even when
requested in each of them, and becomes due again once `now - T ≥ 4`. -/
theorem C6_throttling (st : SymbolFetchState) (label sym : String) (T now : ℚ)
    (requested : List String) (times : List ℚ)
    (hT : st (label, sym) = some T) :
    _min_symbol_refresh_s = 4 ∧
    (now - T < _min_symbol_refresh_s →
      sym ∉ (scan_cycle_fetch st label requested now).1 ∧
      (scan_cycle_fetch st label requested now).2 (label, sym) = some T) ∧
    ((∀ t ∈ times, t - T < _min_symbol_refresh_s) →
      ∀ d ∈ (run_cycles label requested st times).1, sym ∉ d) ∧
    (now - T ≥ _min_symbol_refresh_s → sym ∈ requested →
      sym ∈ (scan_cycle_fetch st label requested now).1) := by
  refine ⟨rfl, fun h => scan_cycle_not_due st label sym T now requested hT h,
    fun h => run_cycles_not_due label sym requested T times st hT h, ?_⟩
  intro h hreq
  show sym ∈ due_symbols st label requested now
  rw [due_symbols, List.mem_filter]
  refine ⟨hreq, ?_⟩
  simp only [_is_symbol_due, hT]
  exact decide_eq_true h

/-- Witness for C6: BTC/USDT on Binance fetched at time 10 is not due at times
11, 12, 13 even when requested each cycle, and is due again at time 14. -/
theorem C6_throttling_witness :
    "BTC/USDT" ∉ (scan_cycle_fetch demoFetchState "Binance" ["BTC/USDT"] 13).1 ∧
    (∀ d ∈ (run_cycles "Binance" ["BTC/USDT"] demoFetchState [11, 12, 13]).1,
      "BTC/USDT" ∉ d) ∧
    "BTC/USDT" ∈ (scan_cycle_fetch demoFetchState "Binance" ["BTC/USDT"] 14).1 := by
  have h := C6_throttling demoFetchState "Binance" "BTC/USDT" 10 13 ["BTC/USDT"]
    [11, 12, 13] rfl
  have h14 := C6_throttling demoFetchState "Binance" "BTC/USDT" 10 14 ["BTC/USDT"]
    [] rfl
  refine ⟨(h.2.1 (by norm_num [_min_symbol_refresh_s])).1, h.2.2.1 ?_,
    h14.2.2.2 (by norm_num [_min_symbol_refresh_s]) (List.mem_cons_self _ _)⟩
  intro t ht
  rw [_min_symbol_refresh_s]
  rcases List.mem_cons.mp ht with rfl | ht
  · norm_num
  rcases List.mem_cons.mp ht with rfl | ht
  · norm_num
  rcases List.mem_cons.mp ht with rfl | ht
  · norm_num
  · simp at ht

/-- C8: the update built for a pair has best buy equal to the minimal ask and
best sell equal to the maximal bid with first-wins tie-breaking,
`spread_abs = sell_bid - buy_ask`, `spread_pct` computed over the mid of the
two (and absent when that mid is not positive), and `volume_24h` the median
of the collected volumes; and a pair that survives in `_scan_pair` emits
exactly the update built from its survivors' bids, asks and present
volumes. -/
theorem C8_build_update_spec :
    (∀ (pair : String) (a : ℚ × String) (arest : List (ℚ × String))
        (b : ℚ × String) (brest : List (ℚ × String)) (volumes : List ℚ),
      ∃ buyItem sellItem, buyItem ∈ a :: arest ∧ sellItem ∈ b :: brest ∧
        (∀ x ∈ a :: arest, buyItem.1 ≤ x.1) ∧
        (∀ x ∈ b :: brest, x.1 ≤ sellItem.1) ∧
        _build_update pair (b :: brest) (a :: arest) volumes
          = ⟨pair, some buyItem.2, some buyItem.1, some sellItem.2,
              some sellItem.1, some (sellItem.1 - buyItem.1),
              (if (sellItem.1 + buyItem.1) / 2 > 0
               then some ((sellItem.1 - buyItem.1)
                  / ((sellItem.1 + buyItem.1) / 2) * 100)
               else none),
              (match volumes with
               | [] => none
               | v :: vs => some (pymedian (v :: vs)))⟩) ∧
    (∀ (pair : String) (l₁ l₂ : List (ℚ × String)) (item : ℚ × String)
        (b : ℚ × String) (brest : List (ℚ × String)) (volumes : List ℚ),
      (∀ x ∈ l₁, item.1 < x.1) → (∀ x ∈ l₁ ++ item :: l₂, item.1 ≤ x.1) →
      (_build_update pair (b :: brest) (l₁ ++ item :: l₂) volumes).buy_ask
          = some item.1 ∧
      (_build_update pair (b :: brest) (l₁ ++ item :: l₂) volumes).best_buy_exchange
          = some item.2) ∧
    (∀ (pair : String) (l₁ l₂ : List (ℚ × String)) (item : ℚ × String)
        (a : ℚ × String) (arest : List (ℚ × String)) (volumes : List ℚ),
      (∀ x ∈ l₁, x.1 < item.1) → (∀ x ∈ l₁ ++ item :: l₂, x.1 ≤ item.1) →
      (_build_update pair (l₁ ++ item :: l₂) (a :: arest) volumes).sell_bid
          = some item.1 ∧
      (_build_update pair (l₁ ++ item :: l₂) (a :: arest) volumes).best_sell_exchange
          = some item.2) ∧
    (∀ (pair : String) (ets : List (String × Option Ticker)) (maxI : Option ℚ)
        (outlier_pct : ℚ) (u : TickerScanUpdate),
      _scan_pair pair ets maxI outlier_pct = some u →
      u = _build_update pair
        ((_survivors (_pair_entries ets maxI) outlier_pct).map fun e =>
          (e.bid, e.exchange))
        ((_survivors (_pair_entries ets maxI) outlier_pct).map fun e =>
          (e.ask, e.exchange))
        ((_survivors (_pair_entries ets maxI) outlier_pct).filterMap fun e =>
          e.volume)) := by
  refine ⟨?_, ?_, ?_, ?_⟩
  · intro pair a arest b brest volumes
    exact ⟨pyMinBy (fun item => item.1) a arest,
      pyMaxBy (fun item => item.1) b brest,
      pyMinBy_mem _ a arest, pyMaxBy_mem _ b brest,
      pyMinBy_le _ a arest, pyMaxBy_ge _ b brest, rfl⟩
  · intro pair l₁ l₂ item b brest volumes hlt hle
    cases l₁ with
    | nil =>
      have hmin : pyMinBy (fun x : ℚ × String => x.1) item l₂ = item :=
        pyMinBy_of_le _ item l₂ fun y hy =>
          hle y (List.mem_append_right [] (List.mem_cons_of_mem _ hy))
      constructor <;> simp [_build_update, hmin]
    | cons a' l₁ =>
      have ha : item.1 < a'.1 := hlt a' (List.mem_cons_self _ _)
      have hmin : pyMinBy (fun x : ℚ × String => x.1) a' (l₁ ++ item :: l₂) = item :=
        pyMinBy_first _ item l₁ l₂ a' ha
          (fun y hy => hlt y (List.mem_cons_of_mem _ hy))
          (fun y hy => hle y (by
            rw [List.cons_append]
            exact List.mem_cons_of_mem _
              (List.mem_append_right l₁ (List.mem_cons_of_mem _ hy))))
      rw [List.cons_append]
      constructor <;> simp [_build_update, hmin]
  · intro pair l₁ l₂ item a arest volumes hlt hle
    cases l₁ with
    | nil =>
      have hmax : pyMaxBy (fun x : ℚ × String => x.1) item l₂ = item :=
        pyMaxBy_of_ge _ item l₂ fun y hy =>
          hle y (List.mem_append_right [] (List.mem_cons_of_mem _ hy))
      constructor <;> simp [_build_update, hmax]
    | cons b' l₁ =>
      have hb : b'.1 < item.1 := hlt b' (List.mem_cons_self _ _)
      have hmax : pyMaxBy (fun x : ℚ × String => x.1) b' (l₁ ++ item :: l₂) = item :=
        pyMaxBy_first _ item l₁ l₂ b' hb
          (fun y hy => hlt y (List.mem_cons_of_mem _ hy))
          (fun y hy => hle y (by
            rw [List.cons_append]
            exact List.mem_cons_of_mem _
              (List.mem_append_right l₁ (List.mem_cons_of_mem _ hy))))
      rw [List.cons_append]
      constructor <;> simp [_build_update, hmax]
  · intro pair ets maxI outlier_pct u h
    rw [_scan_pair] at h
    split at h
    · exact Option.noConfusion h
    · dsimp only at h
      split at h
      · exact Option.noConfusion h
      · rw [Option.some_inj] at h
        exact h.symm

/-- Witness for C8: asks `[(103,"B"), (101,"A"), (101,"C")]` give best buy
101 on A (first at the minimum), bids `[(99,"B"), (102,"A"), (102,"C")]` give
best sell 102 on A (first at the maximum). -/
theorem C8_build_update_spec_witness :
    ((_build_update "X/Y" [(100, "A")] [(103, "B"), (101, "A"), (101, "C")]
        []).buy_ask = some 101 ∧
      (_build_update "X/Y" [(100, "A")] [(103, "B"), (101, "A"), (101, "C")]
        []).best_buy_exchange = some "A") ∧
    ((_build_update "X/Y" [(99, "B"), (102, "A"), (102, "C")] [(100, "A")]
        []).sell_bid = some 102 ∧
      (_build_update "X/Y" [(99, "B"), (102, "A"), (102, "C")] [(100, "A")]
        []).best_sell_exchange = some "A") :=
  ⟨C8_build_update_spec.2.1 "X/Y" [(103, "B")] [(101, "C")] (101, "A")
      (100, "A") [] [] (by decide) (by decide),
    C8_build_update_spec.2.2.1 "X/Y" [(99, "B")] [(102, "C")] (102, "A")
      (100, "A") [] [] (by decide) (by decide)⟩

theorem discover_spec_aux (pe : List (String × List String)) (min_exchanges : Nat) :
    (∀ e ∈ pe.map fun e => (e.1, e.2.insertionSort pyStrLe),
      List.Sorted pyStrLe e.2) ∧
    List.Sorted pyStrLe (((pe.filter fun e => min_exchanges ≤ e.2.length).map
      fun e => e.1).insertionSort pyStrLe) ∧
    (∀ p, p ∈ ((pe.filter fun e => min_exchanges ≤ e.2.length).map
        fun e => e.1).insertionSort pyStrLe ↔
      ∃ exs, (p, exs) ∈ pe.map (fun e => (e.1, e.2.insertionSort pyStrLe)) ∧
        min_exchanges ≤ exs.length) := by
  refine ⟨?_, List.sorted_insertionSort pyStrLe _, ?_⟩
  · intro e he
    obtain ⟨e0, _, rfl⟩ := List.mem_map.mp he
    exact List.sorted_insertionSort pyStrLe e0.2
  · intro p
    constructor
    · intro hp
      rw [List.mem_insertionSort] at hp
      obtain ⟨e0, he0, hp⟩ := List.mem_map.mp hp
      rw [List.mem_filter] at he0
      refine ⟨e0.2.insertionSort pyStrLe,
        List.mem_map.mpr ⟨e0, he0.1, by rw [hp]⟩, ?_⟩
      rw [List.length_insertionSort]
      exact of_decide_eq_true he0.2
    · rintro ⟨exs, hmem, hlen⟩
      rw [List.mem_insertionSort]
      obtain ⟨e0, he0, heq⟩ := List.mem_map.mp hmem
      have hp : e0.1 = p := congrArg Prod.fst heq
      have hexs : e0.2.insertionSort pyStrLe = exs := congrArg Prod.snd heq
      refine List.mem_map.mpr ⟨e0, List.mem_filter.mpr ⟨he0, ?_⟩, hp⟩
      rw [decide_eq_true_eq, ← List.length_insertionSort pyStrLe e0.2, hexs]
      exact hlen

/-- C4, counterexample: with a single exchange listing BTC/USDT and
`min_exchanges = 2`, the returned pair map still contains the pair with a
one-element exchange list, so not every map entry meets the threshold (only
`eligible_pairs` is restricted). -/
theorem C4_map_not_restricted :
    (¬ ∀ e ∈ (discover soloEnv ["Binance"] ["USDT"] 2 (fun _ => false) true
        false).1.pair_exchanges, 2 ≤ e.2.length) ∧
    (discover soloEnv ["Binance"] ["USDT"] 2 (fun _ => false) true
        false).1.pair_exchanges = [("BTC/USDT", ["Binance"])] ∧
    (discover soloEnv ["Binance"] ["USDT"] 2 (fun _ => false) true
        false).1.eligible_pairs = [] := by
  refine ⟨?_, by decide, by decide⟩
  intro h
  have := h ("BTC/USDT", ["Binance"]) (by decide)
  exact absurd this (by decide)

/-- C4 (amended): every entry of the returned pair map has a sorted exchange
list, `eligible_pairs` is sorted and contains exactly the pairs whose
exchange set meets `min_exchanges`; the pair map itself is NOT restricted to
the threshold (it lists every discovered pair). -/
theorem C4_discover_eligible_spec (env : DiscoveryEnv)
    (exchanges quotes : List String) (min_exchanges : Nat)
    (sc : Nat → Bool) (uc rc : Bool) :
    (∀ e ∈ (discover env exchanges quotes min_exchanges sc uc
        rc).1.pair_exchanges, List.Sorted pyStrLe e.2) ∧
    List.Sorted pyStrLe
      (discover env exchanges quotes min_exchanges sc uc rc).1.eligible_pairs ∧
    (∀ p, p ∈ (discover env exchanges quotes min_exchanges sc uc
        rc).1.eligible_pairs ↔
      ∃ exs, (p, exs) ∈ (discover env exchanges quotes min_exchanges sc uc
          rc).1.pair_exchanges ∧ min_exchanges ≤ exs.length) :=
  discover_spec_aux
    (discover_go env (quotes.map pyUpper) uc rc sc exchanges 1 [] [] env.cache).1
    min_exchanges

/-- Witness for C4 (amended): two exchanges listing BTC/USDT give a sorted
exchange list and an eligible pair backed by two exchanges. -/
theorem C4_discover_eligible_spec_witness :
    List.Sorted pyStrLe ["Binance", "OKX"] ∧
    (∃ exs, ("BTC/USDT", exs) ∈ (discover soloEnv ["OKX", "Binance"] ["USDT"] 2
        (fun _ => false) true false).1.pair_exchanges ∧ 2 ≤ exs.length) := by
  have h := C4_discover_eligible_spec soloEnv ["OKX", "Binance"] ["USDT"] 2
    (fun _ => false) true false
  exact ⟨h.1 ("BTC/USDT", ["Binance", "OKX"]) (by decide),
    (h.2.2 "BTC/USDT").mp (by decide)⟩

theorem acquire_markets_miss (uc rc : Bool) (cached : Option CachePayload)
    (gw : List Market) (now : String)
    (h : (uc && !rc) = false ∨ cache_load cached = none) :
    acquire_markets uc rc cached gw now = (gw, some ⟨now, some gw⟩) := by
  rcases h with h | h
  · simp [acquire_markets, h]
  · cases huc : (uc && !rc) <;> simp [acquire_markets, huc, h]

/-- C5, counterexample: a cache entry whose `saved_at` is 1970 — stale by any
reading — is used exactly like one saved now; the load path never consults
`saved_at`, so "present" alone (not "present and fresh") decides cache use. -/
theorem C5_stale_cache_used :
    acquire_markets true false
      (some ⟨"1970-01-01T00:00:00", some [demoMarket]⟩) [gwMarket]
      "2026-10-12T00:00:00" = ([demoMarket], none) ∧
    acquire_markets true false
      (some ⟨"2026-10-12T00:00:00", some [demoMarket]⟩) [gwMarket]
      "2026-10-12T00:00:00" = ([demoMarket], none) :=
  ⟨rfl, rfl⟩

/-- C5 (amended): the cached catalogue is used exactly when caching is
enabled, no refresh is forced, and the entry is present with a list-valued
`markets` field — independently of its `saved_at` timestamp; otherwise the
gateway is called and its raw result is persisted with a `saved_at`
timestamp, keyed by the exchange's ccxt id. -/
theorem C5_market_cache_spec (uc rc : Bool) (cached : Option CachePayload)
    (gw : List Market) (now : String) (env : DiscoveryEnv) (label : String)
    (quotes : List String) :
    (∀ ms, acquire_markets uc rc cached gw now = (ms, none) ↔
      ((uc && !rc) = true ∧ cache_load cached = some ms)) ∧
    ((uc && !rc) = false ∨ cache_load cached = none →
      acquire_markets uc rc cached gw now = (gw, some ⟨now, some gw⟩)) ∧
    (∀ s₁ s₂ msOpt, acquire_markets uc rc (some ⟨s₁, msOpt⟩) gw now
      = acquire_markets uc rc (some ⟨s₂, msOpt⟩) gw now) ∧
    (∀ sc : Nat → Bool, sc 1 = false →
      env.has_exchange (exchange_id_for label) = true →
      ((uc && !rc) = false ∨
        cache_load (env.cache (exchange_id_for label)) = none) →
      (discover env [label] quotes 0 sc uc rc).2
        = fun k => if k = exchange_id_for label
            then some ⟨env.now_iso,
              some (env.load_markets (exchange_id_for label))⟩
            else env.cache k) := by
  refine ⟨?_, acquire_markets_miss uc rc cached gw now, ?_, ?_⟩
  · intro ms
    constructor
    · intro h
      cases huc : (uc && !rc)
      · rw [acquire_markets_miss _ _ _ _ _ (Or.inl huc)] at h
        have := congrArg Prod.snd h
        simp at this
      · cases hc : cache_load cached with
        | none =>
          rw [acquire_markets_miss _ _ _ _ _ (Or.inr hc)] at h
          have := congrArg Prod.snd h
          simp at this
        | some ms' =>
          have heval : acquire_markets uc rc cached gw now = (ms', none) := by
            simp [acquire_markets, huc, hc]
          rw [heval] at h
          have hms : ms' = ms := congrArg Prod.fst h
          exact ⟨rfl, congrArg some hms⟩
    · rintro ⟨huc, hc⟩
      simp [acquire_markets, huc, hc]
  · intro s₁ s₂ msOpt
    cases huc : (uc && !rc) <;> cases msOpt <;>
      simp [acquire_markets, huc, cache_load]
  · intro sc hsc hhas hmiss
    show (discover_go env (quotes.map pyUpper) uc rc sc [label] 1 [] []
      env.cache).2.2 = _
    rw [discover_go, if_neg (by rw [hsc]; exact Bool.false_ne_true), if_pos hhas]
    rw [acquire_markets_miss _ _ _ _ _ hmiss]
    rfl

/-- Witness for C5: the saved-at-independence and the persist-on-miss branch
at concrete inputs (empty cache, gateway returning one market). -/
theorem C5_market_cache_spec_witness :
    acquire_markets true false
      (some ⟨"1970-01-01T00:00:00", some [demoMarket]⟩) [gwMarket]
      "2026-10-12T00:00:00"
      = acquire_markets true false
        (some ⟨"2026-10-12T00:00:00", some [demoMarket]⟩) [gwMarket]
        "2026-10-12T00:00:00" ∧
    (discover missEnv ["Binance"] ["USDT"] 0 (fun _ => false) true false).2
      = fun k => if k = exchange_id_for "Binance"
          then some ⟨missEnv.now_iso,
            some (missEnv.load_markets (exchange_id_for "Binance"))⟩
          else missEnv.cache k :=
  ⟨(C5_market_cache_spec true false none [gwMarket] "2026-10-12T00:00:00"
      missEnv "Binance" ["USDT"]).2.2.1 "1970-01-01T00:00:00"
      "2026-10-12T00:00:00" (some [demoMarket]),
    (C5_market_cache_spec true false none [gwMarket] "2026-10-12T00:00:00"
      missEnv "Binance" ["USDT"]).2.2.2 (fun _ => false) rfl rfl (Or.inr rfl)⟩

/-- C7: a scan completion — success payload or failure — whose run id differs
from the window's current epoch is discarded: the handler returns with the
state unchanged, so no rows, flags, log lines or status text are touched. -/
theorem C7_stale_completion_discarded (env : WindowEnv)
    (st : ScannerWindowState) (payload : TickerScanUpdatePayload)
    (run_id : Nat) (message : String) :
    (payload.run_id ≠ st.run_id → _on_ticker_updated env st payload = st) ∧
    (run_id ≠ st.run_id → _on_ticker_failed env st run_id message = st) := by
  constructor
  · intro h
    simp [_on_ticker_updated, h]
  · intro h
    rw [_on_ticker_failed, if_pos h]

/-- Witness for C7: a payload at epoch 1 arriving while the window is at
epoch 2 leaves the populated demo state untouched, as does a failure
signal carrying epoch 1. -/
theorem C7_stale_completion_discarded_witness :
    _on_ticker_updated demoWindowEnv demoWindowState demoPayload
      = demoWindowState ∧
    _on_ticker_failed demoWindowEnv demoWindowState 1 "boom"
      = demoWindowState :=
  ⟨(C7_stale_completion_discarded demoWindowEnv demoWindowState demoPayload 1
      "boom").1 (by decide),
    (C7_stale_completion_discarded demoWindowEnv demoWindowState demoPayload 1
      "boom").2 (by decide)⟩

end ArbScanner
